import Mathlib

/-!
Verification of the flash spaced-repetition flashcard manager
(`src/main.rs`).  Strings are modelled as lists of characters; dates are
modelled as integer day numbers, so `today + n` stands for the date `n`
days after `today` (the `chrono` additions in the source never overflow on
the interval values involved).  Splitting on a multi-character delimiter
follows Rust `str::split` semantics: non-overlapping occurrences scanned
left to right, with `k` delimiter occurrences producing `k + 1` parts.
-/

namespace Flash

/-- Strings of the Rust source, modelled as lists of characters. -/
abbrev Str := List Char

/-- Worker for `splitSub`.  `fuel` bounds the recursion (it is instantiated
with the length of the list, which always suffices); `acc` holds the
characters of the current part in reverse.  Mirrors Rust `str::split` with a
non-empty pattern: at each position, if the separator is a prefix it is
consumed and the current part is emitted, otherwise one character is moved
into the current part. -/
def splitSubGo (sep : Str) : Nat → Str → Str → List Str
  | _, [], acc => [acc.reverse]
  | 0, l, acc => [acc.reverse ++ l]
  | fuel + 1, c :: rest, acc =>
    if sep.isPrefixOf (c :: rest) ∧ sep ≠ [] then
      acc.reverse :: splitSubGo sep fuel (rest.drop (sep.length - 1)) []
    else
      splitSubGo sep fuel rest (c :: acc)

/-- Rust `str::split` on a non-empty separator pattern: `splitSub sep l` is
the list of parts of `l` between non-overlapping occurrences of `sep`. -/
def splitSub (sep l : Str) : List Str := splitSubGo sep l.length l []

/-- Worker for `countSub`; same scan as `splitSubGo`, counting the
separator occurrences instead of collecting the parts. -/
def countSubGo (sep : Str) : Nat → Str → Nat
  | _, [] => 0
  | 0, _ => 0
  | fuel + 1, c :: rest =>
    if sep.isPrefixOf (c :: rest) ∧ sep ≠ [] then
      countSubGo sep fuel (rest.drop (sep.length - 1)) + 1
    else
      countSubGo sep fuel rest

/-- Number of non-overlapping occurrences of the separator `sep` in `l`,
scanned left to right as Rust `str::split` does. -/
def countSub (sep l : Str) : Nat := countSubGo sep l.length l

/-- The `"----"` delimiter separating the deck-name header and the card
sections of an import file. -/
def sepCards : Str := ['-', '-', '-', '-']

/-- The `"<>"` delimiter separating the front and back of a card section. -/
def sepFrontBack : Str := ['<', '>']

/-- The `":"` delimiter of the `name: <deck name>` header line. -/
def sepColon : Str := [':']

/-- Rust `str::trim`: strip leading and trailing whitespace. -/
def trim (s : Str) : Str :=
  ((s.dropWhile Char.isWhitespace).reverse.dropWhile Char.isWhitespace).reverse

/-- The interval table `level_to_date` of `main.rs`: days until the next
review for a given proficiency level. -/
def level_to_date (level : Int) : Int :=
  if level = 1 then 1
  else if level = 2 then 4
  else if level = 3 then 10
  else if level = 4 then 25
  else if level = 5 then 50
  else 1000

/-- A row of the `flashcards` table (the `Flashcard` struct of `main.rs`);
`added` and `next` are dates as integer day numbers. -/
structure Flashcard where
  id : Int
  deck_id : Int
  front : Str
  back : Str
  added : Int
  next : Int
  level : Int
deriving DecidableEq

/-- The `parse_cards` function of `main.rs`: each card section is split on
`"<>"`; a section splitting into exactly two sides becomes a flashcard with
`added = next = added_date` and `level = 1`, any other section is skipped. -/
def parse_cards (deck_id : Int) (cards : List Str) (added_date : Int) : List Flashcard :=
  match cards with
  | [] => []
  | card :: rest =>
    let sides := splitSub sepFrontBack card
    if sides.length = 2 then
      { id := -1, deck_id := deck_id, front := sides.getD 0 [], back := sides.getD 1 [],
        added := added_date, next := added_date, level := 1 }
        :: parse_cards deck_id rest added_date
    else
      parse_cards deck_id rest added_date

/-- The scheduling state written back by `update_flashcard_level`. -/
structure CardState where
  level : Int
  next : Int
deriving DecidableEq

/-- The grading step of the `quiz` loop in `main.rs`.  On a correct answer
(key `1`): level becomes `level + 1` and the next date is
`today + level_to_date (level + 1)`.  On an incorrect answer (key `2`): the
next date is `today + level_to_date level` (the interval of the current,
pre-demotion level) and the level becomes `level - 1` floored at `1`. -/
def quizAnswer (today level : Int) (correct : Bool) : CardState :=
  if correct then
    { level := level + 1, next := today + level_to_date (level + 1) }
  else
    { level := if level > 1 then level - 1 else 1, next := today + level_to_date level }

/-- The due-card query of `quiz`:
`SELECT ... FROM flashcards WHERE deck_id = ?1 and next <= ?2` with `?2`
bound to today's date. -/
def due_cards (cards : List Flashcard) (deck_id today : Int) : List Flashcard :=
  cards.filter (fun c => decide (c.deck_id = deck_id ∧ c.next ≤ today))

/-- A message printed by the card-import loop of `add`: either the success
line with the card's front, or the error line with the insert error. -/
inductive ImportMsg where
  | added (front : Str)
  | failed (err : String)
deriving DecidableEq

/-- The card-import loop of the `cards` branch of `add` in `main.rs`:
each parsed card is passed to `insert_flashcard`; on success a success
message is printed (and the row id recorded), on failure an error message is
printed; either way the loop continues with the next card.  Returns the
messages in print order and the successfully inserted cards. -/
def import_cards (insert : Flashcard → Except String Unit) :
    List Flashcard → List ImportMsg × List Flashcard
  | [] => ([], [])
  | card :: rest =>
    let r := import_cards insert rest
    match insert card with
    | Except.ok _ => (ImportMsg.added card.front :: r.1, card :: r.2)
    | Except.error e => (ImportMsg.failed e :: r.1, r.2)

/-- An insert oracle that always succeeds (a database insert with no
constraint violation). -/
def insertOk : Flashcard → Except String Unit := fun _ => Except.ok ()

/-- An insert oracle that always fails. -/
def insertFail : Flashcard → Except String Unit := fun _ => Except.error "fail"

/-- A sample flashcard for concrete instantiations. -/
def sampleCard : Flashcard :=
  { id := -1, deck_id := 1, front := ['a'], back := ['b'], added := 0, next := 0, level := 1 }

/-- The deck-name extraction at the start of the `cards` branch of `add`:
the file is split on `"----"`, the first segment is split on `":"`, and
element `1` of that split is trimmed to give the deck name.  The source
indexes `name[1]` unconditionally, which panics when the split has fewer
than two elements; that panic is modelled as `none`. -/
def extract_deck_name (file : Str) : Option Str :=
  let cards := splitSub sepCards file
  let name := splitSub sepColon (cards.getD 0 [])
  if 1 < name.length then some (trim (name.getD 1 [])) else none

/-- The split of a string has one part more than it has separator
occurrences (for any fuel value: both scans branch identically). -/
theorem splitSubGo_length (sep : Str) :
    ∀ (fuel : Nat) (l acc : Str),
      (splitSubGo sep fuel l acc).length = countSubGo sep fuel l + 1 := by
  intro fuel
  induction fuel with
  | zero =>
    intro l acc
    cases l <;> simp [splitSubGo, countSubGo]
  | succ n ih =>
    intro l acc
    cases l with
    | nil => simp [splitSubGo, countSubGo]
    | cons c rest =>
      by_cases h : sep <+: c :: rest ∧ ¬sep = []
      · simp [splitSubGo, countSubGo, h, ih]
      · simp [splitSubGo, countSubGo, h, ih]

/-- The split of a string has one part more than it has separator
occurrences. -/
theorem splitSub_length (sep l : Str) :
    (splitSub sep l).length = countSub sep l + 1 :=
  splitSubGo_length sep l.length l []

/-- A single-character separator occurs in a string iff the occurrence
count is positive (when the fuel covers the string). -/
theorem countSubGo_single_pos (c : Char) :
    ∀ (fuel : Nat) (l : Str), l.length ≤ fuel →
      (1 ≤ countSubGo [c] fuel l ↔ c ∈ l) := by
  intro fuel
  induction fuel with
  | zero =>
    intro l h
    have hl : l = [] := List.eq_nil_of_length_eq_zero (Nat.le_zero.mp h)
    subst hl
    simp [countSubGo]
  | succ n ih =>
    intro l h
    cases l with
    | nil => simp [countSubGo]
    | cons x rest =>
      by_cases hp : List.isPrefixOf [c] (x :: rest) = true ∧ ([c] : Str) ≠ []
      · have hx : c = x := by
          have := hp.1
          simpa [List.isPrefixOf] using this
        simp [countSubGo, hp, hx]
      · have hx : ¬c = x := by
          intro hcx
          exact hp ⟨by simp [List.isPrefixOf, hcx], by simp⟩
        have hrest : rest.length ≤ n := by simpa using h
        simp [countSubGo, hp, ih rest hrest, List.mem_cons, hx]

/-- A single-character separator occurs in a string iff the occurrence
count is positive. -/
theorem countSub_single_pos (c : Char) (l : Str) :
    1 ≤ countSub [c] l ↔ c ∈ l :=
  countSubGo_single_pos c l.length l le_rfl

/-- With an always-succeeding insert oracle, the import loop prints one
success message per card and inserts every card. -/
theorem import_cards_ok (cards : List Flashcard) :
    import_cards insertOk cards =
      (cards.map (fun c => ImportMsg.added c.front), cards) := by
  induction cards with
  | nil => rfl
  | cons c rest ih => simp [import_cards, insertOk, ih]

/-- The import loop prints exactly one message per card, for any insert
oracle. -/
theorem import_cards_msg_length (insert : Flashcard → Except String Unit)
    (cards : List Flashcard) :
    (import_cards insert cards).1.length = cards.length := by
  induction cards with
  | nil => rfl
  | cons c rest ih =>
    cases h : insert c <;> simp [import_cards, h, ih]

/-- Every card produced by `parse_cards` has `added = next = added_date`
and `level = 1`. -/
theorem parse_cards_fields (deck_id today : Int) (sections : List Str) :
    ∀ c ∈ parse_cards deck_id sections today,
      c.added = today ∧ c.next = today ∧ c.level = 1 := by
  induction sections with
  | nil => simp [parse_cards]
  | cons s rest ih =>
    intro c hc
    by_cases hs : (splitSub sepFrontBack s).length = 2
    · simp only [parse_cards, hs, if_true, List.mem_cons] at hc
      rcases hc with hc | hc
      · subst hc
        exact ⟨rfl, rfl, rfl⟩
      · exact ih c hc
    · simp only [parse_cards, hs, if_false] at hc
      exact ih c hc

/-- When every section splits on `"<>"` into exactly two sides,
`parse_cards` produces one flashcard per section. -/
theorem parse_cards_length (deck_id today : Int) (sections : List Str)
    (h : ∀ s ∈ sections, countSub sepFrontBack s = 1) :
    (parse_cards deck_id sections today).length = sections.length := by
  induction sections with
  | nil => rfl
  | cons s rest ih =>
    have hs : (splitSub sepFrontBack s).length = 2 := by
      rw [splitSub_length, h s (by simp)]
    simp [parse_cards, hs, ih (fun t ht => h t (by simp [ht]))]

/-- C1 (counterexample): the claim "level 3, incorrect gives next due
today + 4" is false: with today = 0 the quiz grading of an incorrect answer
at level 3 does not produce next = 0 + 4 (it produces next = 10, the
interval of the pre-demotion level 3). -/
theorem incorrect_level3_claim_false :
    ¬((quizAnswer 0 3 false).level = 2 ∧ (quizAnswer 0 3 false).next = 0 + 4) := by
  decide

/-- C1 (amended): for a card at proficiency level 3, grading the answer as
incorrect produces a new level of 2 and a next-due date of today + 10 days
(the interval of the pre-demotion level 3, since the code computes the next
date from the old level). -/
theorem incorrect_level3_schedule (today : Int) :
    (quizAnswer today 3 false).level = 2 ∧
      (quizAnswer today 3 false).next = today + 10 :=
  ⟨rfl, rfl⟩

/-- C2: importing sections that each contain exactly one `"<>"` delimiter
yields exactly one flashcard row per section, all of them inserted, each
with `added = next =` the import date and `level = 1`. -/
theorem import_wellformed_cards (deck_id today : Int) (sections : List Str)
    (h : ∀ s ∈ sections, countSub sepFrontBack s = 1) :
    (parse_cards deck_id sections today).length = sections.length ∧
    (import_cards insertOk (parse_cards deck_id sections today)).2
        = parse_cards deck_id sections today ∧
    ∀ c ∈ parse_cards deck_id sections today,
      c.added = today ∧ c.next = today ∧ c.level = 1 :=
  ⟨parse_cards_length deck_id today sections h,
   by rw [import_cards_ok],
   parse_cards_fields deck_id today sections⟩

/-- C2 witness: a concrete import of two well-formed sections. -/
theorem import_wellformed_cards_witness :
    (parse_cards 1 [['a', '<', '>', 'b'], ['c', '<', '>', 'd']] 0).length
        = [['a', '<', '>', 'b'], ['c', '<', '>', 'd']].length ∧
    (import_cards insertOk
        (parse_cards 1 [['a', '<', '>', 'b'], ['c', '<', '>', 'd']] 0)).2
        = parse_cards 1 [['a', '<', '>', 'b'], ['c', '<', '>', 'd']] 0 ∧
    ∀ c ∈ parse_cards 1 [['a', '<', '>', 'b'], ['c', '<', '>', 'd']] 0,
      c.added = 0 ∧ c.next = 0 ∧ c.level = 1 :=
  import_wellformed_cards 1 0 [['a', '<', '>', 'b'], ['c', '<', '>', 'd']]
    (by decide)

/-- C3: for every level L ≥ 1, grading a card as correct increments its
level by 1 (with no upper clamp) and sets its next-due date to
today + interval(L + 1); in particular at level 1 the new level is 2 and
the next-due date is today + 4. -/
theorem correct_answer_schedule (today L : Int) (h : 1 ≤ L) :
    (quizAnswer today L true).level = L + 1 ∧
    (quizAnswer today L true).next = today + level_to_date (L + 1) ∧
    (quizAnswer today 1 true).level = 2 ∧
    (quizAnswer today 1 true).next = today + 4 :=
  ⟨rfl, rfl, rfl, rfl⟩

/-- C3 witness: concrete instantiation at today = 0, level 1. -/
theorem correct_answer_schedule_witness :
    (quizAnswer 0 1 true).level = 1 + 1 ∧
    (quizAnswer 0 1 true).next = 0 + level_to_date (1 + 1) ∧
    (quizAnswer 0 1 true).level = 2 ∧
    (quizAnswer 0 1 true).next = 0 + 4 :=
  correct_answer_schedule 0 1 (by decide)

/-- C4: the interval lookup maps level 1 to 1 day, 2 to 4, 3 to 10, 4 to
25, 5 to 50, and every other level (0, negatives, levels above 5) to 1000
days. -/
theorem level_to_date_table :
    level_to_date 1 = 1 ∧ level_to_date 2 = 4 ∧ level_to_date 3 = 10 ∧
    level_to_date 4 = 25 ∧ level_to_date 5 = 50 ∧
    ∀ L : Int, L ≠ 1 → L ≠ 2 → L ≠ 3 → L ≠ 4 → L ≠ 5 →
      level_to_date L = 1000 := by
  refine ⟨rfl, rfl, rfl, rfl, rfl, ?_⟩
  intro L h1 h2 h3 h4 h5
  simp [level_to_date, h1, h2, h3, h4, h5]

/-- C4 witness: the default branch at 0, a negative level, and a level
above 5. -/
theorem level_to_date_table_witness :
    level_to_date 0 = 1000 ∧ level_to_date (-7) = 1000 ∧
      level_to_date 6 = 1000 :=
  ⟨level_to_date_table.2.2.2.2.2 0 (by decide) (by decide) (by decide)
      (by decide) (by decide),
   level_to_date_table.2.2.2.2.2 (-7) (by decide) (by decide) (by decide)
      (by decide) (by decide),
   level_to_date_table.2.2.2.2.2 6 (by decide) (by decide) (by decide)
      (by decide) (by decide)⟩

/-- C5: for every level L ≥ 1, grading a card as incorrect never produces
a level below 1: the level decrements by 1 but is floored at 1. -/
theorem incorrect_answer_floor (today L : Int) (h : 1 ≤ L) :
    1 ≤ (quizAnswer today L false).level ∧
    (quizAnswer today L false).level = max (L - 1) 1 := by
  have hl : (quizAnswer today L false).level = if L > 1 then L - 1 else 1 := rfl
  rw [hl]
  constructor <;> split <;> omega

/-- C5 witness: concrete instantiation at today = 0, level 1. -/
theorem incorrect_answer_floor_witness :
    1 ≤ (quizAnswer 0 1 false).level ∧
    (quizAnswer 0 1 false).level = max (1 - 1) 1 :=
  incorrect_answer_floor 0 1 (by decide)

/-- C6: a card section whose number of `"<>"` delimiters is not exactly
one (so splitting on `"<>"` does not yield exactly two parts) is silently
dropped and contributes no flashcard row to the import. -/
theorem malformed_card_dropped (deck_id today : Int) (s : Str)
    (rest : List Str) (h : countSub sepFrontBack s ≠ 1) :
    parse_cards deck_id (s :: rest) today = parse_cards deck_id rest today := by
  have hs : ¬(splitSub sepFrontBack s).length = 2 := by
    rw [splitSub_length]
    omega
  simp [parse_cards, hs]

/-- C6 witness: a section with zero `"<>"` delimiters is dropped. -/
theorem malformed_card_dropped_witness :
    parse_cards 1 (['a'] :: [['x', '<', '>', 'y']]) 0
      = parse_cards 1 [['x', '<', '>', 'y']] 0 :=
  malformed_card_dropped 1 0 ['a'] [['x', '<', '>', 'y']] (by decide)

/-- C7: the quiz session selects exactly the cards of the target deck
whose next-due date is on or before today; cards due strictly after today
are excluded. -/
theorem due_card_selection (cards : List Flashcard) (deck_id today : Int)
    (c : Flashcard) :
    c ∈ due_cards cards deck_id today ↔
      c ∈ cards ∧ c.deck_id = deck_id ∧ c.next ≤ today := by
  simp [due_cards, List.mem_filter]

/-- C8: the interval table is monotonically non-decreasing on levels 1 to
5. -/
theorem interval_table_monotone (L M : Int) (h1 : 1 ≤ L) (h2 : L < M)
    (h3 : M ≤ 5) : level_to_date L ≤ level_to_date M := by
  have hL : L = 1 ∨ L = 2 ∨ L = 3 ∨ L = 4 := by omega
  have hM : M = 2 ∨ M = 3 ∨ M = 4 ∨ M = 5 := by omega
  rcases hL with rfl | rfl | rfl | rfl <;> rcases hM with rfl | rfl | rfl | rfl <;>
    first
      | decide
      | exact absurd h2 (by decide)

/-- C8 witness: concrete instantiation at levels 1 and 2. -/
theorem interval_table_monotone_witness :
    level_to_date 1 ≤ level_to_date 2 :=
  interval_table_monotone 1 2 (by decide) (by decide) (by decide)

/-- C9: a failure to insert one card during a batch import is reported
with its own error message and does not stop the import: the remaining
cards are processed exactly as they would be without the failing card, and
every card still gets a message. -/
theorem import_failure_continues (insert : Flashcard → Except String Unit)
    (card : Flashcard) (e : String) (rest : List Flashcard)
    (h : insert card = Except.error e) :
    (import_cards insert (card :: rest)).1
        = ImportMsg.failed e :: (import_cards insert rest).1 ∧
    (import_cards insert (card :: rest)).2 = (import_cards insert rest).2 ∧
    (import_cards insert (card :: rest)).1.length = rest.length + 1 := by
  refine ⟨?_, ?_, ?_⟩ <;> simp [import_cards, h, import_cards_msg_length]

/-- C9 witness: a concrete failing insert followed by another card. -/
theorem import_failure_continues_witness :
    (import_cards insertFail (sampleCard :: [sampleCard])).1
        = ImportMsg.failed "fail" :: (import_cards insertFail [sampleCard]).1 ∧
    (import_cards insertFail (sampleCard :: [sampleCard])).2
        = (import_cards insertFail [sampleCard]).2 ∧
    (import_cards insertFail (sampleCard :: [sampleCard])).1.length
        = [sampleCard].length + 1 :=
  import_failure_continues insertFail sampleCard "fail" [sampleCard] rfl

/-- C10: deck-name extraction in `add cards` panics (returns `none` in the
model) exactly when the first `"----"`-segment of the file contains no
`':'` character; in particular the empty file panics. -/
theorem extract_deck_name_none_iff (file : Str) :
    extract_deck_name file = none ↔
      ':' ∉ (splitSub sepCards file).getD 0 [] := by
  have hlen : (splitSub sepColon ((splitSub sepCards file).getD 0 [])).length
      = countSub [':'] ((splitSub sepCards file).getD 0 []) + 1 :=
    splitSub_length sepColon _
  have hmem := countSub_single_pos ':' ((splitSub sepCards file).getD 0 [])
  simp only [extract_deck_name]
  by_cases h : 1 < (splitSub sepColon ((splitSub sepCards file).getD 0 [])).length
  · have hc : ':' ∈ (splitSub sepCards file).getD 0 [] := hmem.mp (by omega)
    rw [if_pos h]
    constructor
    · intro hx
      exact absurd hx (Option.some_ne_none _)
    · intro hx
      exact absurd hc hx
  · have hc : ':' ∉ (splitSub sepCards file).getD 0 [] := by
      intro hin
      have := hmem.mpr hin
      omega
    rw [if_neg h]
    exact ⟨fun _ => hc, fun _ => rfl⟩

end Flash
